import Mathlib

/-!
Verification of the real-time audio session manager of the Keshra AI client.

The definitions below are a shallow embedding of the audio core:

* `src/utils/audioUtils.ts` (and its twin in `src/unnamed/part_007`):
  the PCM codec (`float32ToPCM16`, `createAudioBlob`, `encode`/`decode`
  base64, `convertPCM16ToFloat32`, `decodeAudioData`);
* `src/hooks/useWAI.ts`: the playback scheduler embedded in the live
  `onmessage` callback (start-time computation, the `audioSources` pending
  set, `nextStartTimeRef`), the `interrupt` branch, the capture
  `onaudioprocess` callback with its half-duplex gate, the transcript
  accumulator flushed on `turnComplete`, and the `connect`/`disconnect`
  lifecycle.

Audio samples and clock times are modelled as rationals (the JS code works
with IEEE doubles; every claim proved here is about exact arithmetic
relations that the source computes with `Math.max`, `Math.min`, `*`, `/`
and integer truncation).  JS `Int16Array` stores truncate toward zero and
wrap modulo 2^16; both steps are modelled explicitly.  The browser
builtins `btoa`/`atob` are modelled as standard RFC 4648 base64 with the
WHATWG forgiving-base64 padding rules (whitespace stripping is omitted:
every string fed to them by this program is machine-generated).
-/

namespace Keshra

/-! ### PCM codec: `src/utils/audioUtils.ts` -/

/-- Clamp a sample to `[-1, 1]`: `Math.max(-1, Math.min(1, x))`
(`audioUtils.ts` line 6). -/
def clamp1 (x : ℚ) : ℚ := max (-1) (min 1 x)

/-- JS number-to-integer conversion used by an `Int16Array` store:
truncation toward zero (`ToIntegerOrInfinity`). -/
def truncToInt (q : ℚ) : ℤ := if q < 0 then ⌈q⌉ else ⌊q⌋

/-- Wrap an integer into the signed 16-bit range, as the `Int16Array`
store does (`ToInt16`: reduce mod 2^16, then re-center). -/
def toInt16 (v : ℤ) : ℤ := (v + 32768) % 65536 - 32768

/-- One sample of `float32ToPCM16` (`audioUtils.ts` lines 5-8):
clamp to `[-1,1]`, scale negatives by 0x8000 and non-negatives by 0x7FFF,
then store into the `Int16Array` (truncate and wrap). -/
def sampleToPCM16 (x : ℚ) : ℤ :=
  let s := clamp1 x
  toInt16 (truncToInt (if s < 0 then s * 32768 else s * 32767))

/-- `float32ToPCM16` (`audioUtils.ts` lines 3-10). -/
def float32ToPCM16 (float32Arr : List ℚ) : List ℤ :=
  float32Arr.map sampleToPCM16

/-- Little-endian byte pair of one stored int16 value, as exposed by
`new Uint8Array(pcm16.buffer)` (`audioUtils.ts` line 33). -/
def int16ToBytesLE (v : ℤ) : List ℕ :=
  let u := (v % 65536).toNat
  [u % 256, u / 256]

/-- The full byte image of an `Int16Array` buffer (little-endian). -/
def int16BufferBytes (pcm : List ℤ) : List ℕ :=
  (pcm.map int16ToBytesLE).flatten

/-! ### Base64 (`btoa`/`atob`, used by `encode`/`decode` in
`src/unnamed/part_007` lines 62-79 and `uint8ArrayToBase64` /
`base64ToUint8Array` in `audioUtils.ts`) -/

/-- The base64 alphabet. -/
def b64Alphabet : List Char :=
  "ABCDEFGHIJKLMNOPQRSTUVWXYZabcdefghijklmnopqrstuvwxyz0123456789+/".toList

/-- Character for a sextet. -/
def b64Char (n : ℕ) : Char := b64Alphabet.getD n 'A'

/-- Index of a base64 character, `none` for a character outside the
alphabet (this is what makes `atob` throw). -/
def b64Index (c : Char) : Option ℕ := List.findIdx? (fun a => a == c) b64Alphabet

/-- Split bytes into sextets, three bytes to four sextets, with the
standard partial-chunk handling. -/
def bytesToSextets : List ℕ → List ℕ
  | [] => []
  | [a] => [a / 4, a % 4 * 16]
  | [a, b] => [a / 4, a % 4 * 16 + b / 16, b % 16 * 4]
  | a :: b :: c :: rest =>
      a / 4 :: (a % 4 * 16 + b / 16) :: (b % 16 * 4 + c / 64) :: c % 64 ::
        bytesToSextets rest

/-- Number of `'='` padding characters for a payload of `n` bytes. -/
def padLen (n : ℕ) : ℕ := if n % 3 = 1 then 2 else if n % 3 = 2 then 1 else 0

/-- `btoa` on a byte string. -/
def btoa (bytes : List ℕ) : String :=
  String.mk ((bytesToSextets bytes).map b64Char ++
    List.replicate (padLen bytes.length) '=')

/-- Remove up to two leading `'='` from a reversed character list. -/
def stripEq2 (cs : List Char) : List Char :=
  match cs with
  | c1 :: c2 :: rest =>
      if c1 = '=' then (if c2 = '=' then rest else c2 :: rest) else cs
  | [c1] => if c1 = '=' then [] else cs
  | [] => []

/-- Strip the trailing `'='` padding (only when the length is a multiple
of four, per forgiving-base64). -/
def dropPad (cs : List Char) : List Char :=
  if cs.length % 4 = 0 then (stripEq2 cs.reverse).reverse else cs

/-- Reassemble bytes from sextets, four sextets to three bytes, with the
standard partial-chunk handling. -/
def sextetsToBytes : List ℕ → List ℕ
  | s0 :: s1 :: s2 :: s3 :: rest =>
      (s0 * 4 + s1 / 16) :: (s1 % 16 * 16 + s2 / 4) :: (s2 % 4 * 64 + s3) ::
        sextetsToBytes rest
  | [s0, s1] => [s0 * 4 + s1 / 16]
  | [s0, s1, s2] => [s0 * 4 + s1 / 16, s1 % 16 * 16 + s2 / 4]
  | _ => []

/-- Decode every character through the alphabet; `none` as soon as one
character is outside it. -/
def b64IndexList : List Char → Option (List ℕ)
  | [] => some []
  | c :: cs =>
    match b64Index c, b64IndexList cs with
    | some i, some rest => some (i :: rest)
    | _, _ => none

/-- `atob`: `none` models the `InvalidCharacterError` throw. -/
def atob (s : String) : Option (List ℕ) :=
  let body := dropPad s.toList
  if body.length % 4 = 1 then none
  else
    match b64IndexList body with
    | none => none
    | some sextets => some (sextetsToBytes sextets)

/-- Wire blob `{ data, mimeType }` (`src/types.ts` `BlobData`). -/
structure BlobData where
  data : String
  mimeType : String
  deriving DecidableEq

/-- `encode` (= `uint8ArrayToBase64`): `part_007` lines 62-69. -/
def encode (bytes : List ℕ) : String := btoa bytes

/-- `decode` (= `base64ToUint8Array`): `part_007` lines 71-79. -/
def decode (base64 : String) : Option (List ℕ) := atob base64

/-- `createAudioBlob` (`audioUtils.ts` lines 31-38): PCM16-encode the
samples, view the buffer as bytes, base64-encode, attach the mime type.
This is the spec's `encodeFrame`. -/
def createAudioBlob (inputData : List ℚ) : BlobData :=
  { data := encode (int16BufferBytes (float32ToPCM16 inputData)),
    mimeType := "audio/pcm;rate=16000" }

/-- Signed 16-bit value of a little-endian byte pair, as an `Int16Array`
view reads it. -/
def int16FromLE (lo hi : ℕ) : ℤ :=
  if lo + 256 * hi < 32768 then (lo + 256 * hi : ℕ)
  else (lo + 256 * hi : ℕ) - 65536

/-- `new Int16Array(buffer)` contents (little-endian pairs). -/
def bytesToInt16LE : List ℕ → List ℤ
  | lo :: hi :: rest => int16FromLE lo hi :: bytesToInt16LE rest
  | _ => []

/-- `convertPCM16ToFloat32` (`audioUtils.ts` lines 40-47).  The
`Int16Array` constructor throws a `RangeError` when the buffer length is
not a multiple of 2; `none` models that throw. -/
def convertPCM16ToFloat32 (buffer : List ℕ) : Option (List ℚ) :=
  if buffer.length % 2 = 0 then
    some ((bytesToInt16LE buffer).map fun v : ℤ => (v : ℚ) / 32768)
  else none

/-- Channel `channel` of `decodeAudioData(data, ctx, sampleRate,
numChannels)` (`part_007` lines 81-98): reinterpret the bytes as int16,
`frameCount = dataInt16.length / numChannels`, and sample `i` of a channel
is `dataInt16[i * numChannels + channel] / 32768`.  As above, `none`
models the odd-byte-length `RangeError`.  (An out-of-range read yields 0
here; with `numChannels = 1`, the case every claim is about, no read is
out of range.) -/
def decodeAudioData (data : List ℕ) (sampleRate numChannels channel : ℕ) :
    Option (List ℚ) :=
  if data.length % 2 = 0 then
    let dataInt16 := bytesToInt16LE data
    let frameCount := dataInt16.length / numChannels
    some ((List.range frameCount).map fun i =>
      ((dataInt16.getD (i * numChannels + channel) 0 : ℤ) : ℚ) / 32768)
  else none

/-- Decode-failure modes of the inbound audio path
(`decodeAudioData(decode(base64Audio), outputCtx, 24000, 1)`,
`useWAI.ts` line 298 / 686): `atob` throws on malformed base64, and the
`Int16Array` constructor throws on an odd byte count. -/
inductive DecodeErr
  | invalidBase64
  | oddByteLength
  deriving DecidableEq

/-- The spec's `decodeFrame`: base64-decode, reinterpret as int16
(mono, 24 kHz), divide by 32768.  This is exactly
`decodeAudioData(decode(b), outputCtx, 24000, 1)` from the `onmessage`
handler. -/
def decodeFrame (base64 : String) : Except DecodeErr (List ℚ) :=
  match decode base64 with
  | none => .error .invalidBase64
  | some bytes =>
    match decodeAudioData bytes 24000 1 0 with
    | none => .error .oddByteLength
    | some samples => .ok samples

/-! ### Base64 round-trip -/

/-- Decoding the character of a sextet recovers the sextet. -/
lemma b64Index_b64Char : ∀ s : ℕ, s < 64 → b64Index (b64Char s) = some s := by
  decide

/-- Sextet characters are never the padding character. -/
lemma b64Char_ne_eq : ∀ s : ℕ, s < 64 → b64Char s ≠ '=' := by
  decide

/-- All sextets produced from in-range bytes are in range. -/
lemma bytesToSextets_lt : ∀ (bytes : List ℕ), (∀ b ∈ bytes, b < 256) →
    ∀ s ∈ bytesToSextets bytes, s < 64
  | [], _, s, hs => by simp [bytesToSextets] at hs
  | [a], h, s, hs => by
      have ha := h a (by simp)
      simp [bytesToSextets] at hs
      rcases hs with h1 | h1 <;> omega
  | [a, b], h, s, hs => by
      have ha := h a (by simp)
      have hb := h b (by simp)
      simp [bytesToSextets] at hs
      rcases hs with h1 | h1 | h1 <;> omega
  | a :: b :: c :: rest, h, s, hs => by
      have ha := h a (by simp)
      have hb := h b (by simp)
      have hc := h c (by simp)
      simp only [bytesToSextets, List.mem_cons] at hs
      rcases hs with h1 | h1 | h1 | h1 | h1
      · omega
      · omega
      · omega
      · omega
      · exact bytesToSextets_lt rest (fun x hx => h x (by simp [hx])) s h1

/-- Length of the sextet list in terms of the byte count. -/
lemma bytesToSextets_length : ∀ bytes : List ℕ,
    (bytesToSextets bytes).length =
      bytes.length / 3 * 4 + (if bytes.length % 3 = 0 then 0 else bytes.length % 3 + 1)
  | [] => by simp [bytesToSextets]
  | [a] => by simp [bytesToSextets]
  | [a, b] => by simp [bytesToSextets]
  | a :: b :: c :: rest => by
      have ih := bytesToSextets_length rest
      simp only [bytesToSextets, List.length_cons] at ih ⊢
      rw [show rest.length + 1 + 1 + 1 = rest.length + 3 by omega,
        Nat.add_mod_right]
      split_ifs at ih ⊢ <;> omega

/-- Character decoding inverts character encoding on in-range sextets. -/
lemma b64IndexList_map_b64Char : ∀ (l : List ℕ), (∀ s ∈ l, s < 64) →
    b64IndexList (l.map b64Char) = some l
  | [], _ => rfl
  | s :: rest, h => by
      have hs := h s (by simp)
      have ih := b64IndexList_map_b64Char rest (fun x hx => h x (by simp [hx]))
      simp only [List.map_cons, b64IndexList, ih, b64Index_b64Char s hs]

/-- Removing `p ≤ 2` copies of `'='` prepended to a list whose head is not
`'='` recovers the list. -/
lemma stripEq2_pad (p : ℕ) (hp : p ≤ 2) (ys : List Char)
    (hy : ∀ c ∈ ys.take 1, c ≠ '=') :
    stripEq2 (List.replicate p '=' ++ ys) = ys := by
  interval_cases p
  · cases ys with
    | nil => rfl
    | cons y t =>
        have hy0 : y ≠ '=' := hy y (by simp)
        cases t with
        | nil => simp [stripEq2, hy0]
        | cons z zs => simp [stripEq2, hy0]
  · cases ys with
    | nil => simp [stripEq2]
    | cons y t =>
        have hy0 : y ≠ '=' := hy y (by simp)
        simp [stripEq2, hy0]
  · cases ys with
    | nil => simp [stripEq2]
    | cons y t => simp [stripEq2]

/-- Stripping the padding recovers the un-padded character list. -/
lemma dropPad_pad (xs : List Char) (p : ℕ) (hp : p ≤ 2)
    (hx : ∀ c ∈ xs, c ≠ '=')
    (hlen : (xs.length + p) % 4 = 0) :
    dropPad (xs ++ List.replicate p '=') = xs := by
  have hlen2 : (xs ++ List.replicate p '=').length % 4 = 0 := by
    simp only [List.length_append, List.length_replicate]
    exact hlen
  have hrev : (xs ++ List.replicate p '=').reverse =
      List.replicate p '=' ++ xs.reverse := by
    rw [List.reverse_append, List.reverse_replicate]
  have hy : ∀ c ∈ xs.reverse.take 1, c ≠ '=' := by
    intro c hc
    exact hx c (by
      have hmem : c ∈ xs.reverse := List.mem_of_mem_take hc
      simpa using hmem)
  unfold dropPad
  rw [if_pos hlen2, hrev, stripEq2_pad p hp xs.reverse hy, List.reverse_reverse]

/-- Splitting a byte into nibble arithmetic: helper equalities used to
invert the sextet packing. -/
lemma sextet_pair_eq (a b : ℕ) (hb : b < 256) :
    a / 4 * 4 + (a % 4 * 16 + b / 16) / 16 = a ∧
    (a % 4 * 16 + b / 16) % 16 = b / 16 := by
  have h1 : b / 16 < 16 := by omega
  constructor
  · have h2 : (a % 4 * 16 + b / 16) / 16 = a % 4 := by omega
    omega
  · omega

/-- Byte reassembly inverts sextet splitting on in-range bytes. -/
lemma sextetsToBytes_bytesToSextets : ∀ (bytes : List ℕ),
    (∀ b ∈ bytes, b < 256) → sextetsToBytes (bytesToSextets bytes) = bytes
  | [], _ => rfl
  | [a], h => by
      have ha := h a (by simp)
      simp only [bytesToSextets, sextetsToBytes, List.cons.injEq, and_true]
      have h2 : (a % 4 * 16 + 0 / 16) / 16 = a % 4 := by omega
      omega
  | [a, b], h => by
      have ha := h a (by simp)
      have hb := h b (by simp)
      obtain ⟨h1, h2⟩ := sextet_pair_eq a b hb
      simp only [bytesToSextets, sextetsToBytes, List.cons.injEq, and_true]
      have h3 : (b % 16 * 4) / 4 = b % 16 := by omega
      exact ⟨by omega, by omega⟩
  | a :: b :: c :: rest, h => by
      have ha := h a (by simp)
      have hb := h b (by simp)
      have hc := h c (by simp)
      obtain ⟨h1, h2⟩ := sextet_pair_eq a b hb
      have h3 : c / 64 < 4 := by omega
      have h4 : (b % 16 * 4 + c / 64) / 4 = b % 16 := by omega
      have h5 : (b % 16 * 4 + c / 64) % 4 = c / 64 := by omega
      have ih := sextetsToBytes_bytesToSextets rest
        (fun x hx => h x (by simp [hx]))
      cases rest with
      | nil =>
          simp only [bytesToSextets, sextetsToBytes, List.cons.injEq, and_true]
          exact ⟨by omega, by omega, by omega⟩
      | cons d rest2 =>
          cases rest2 with
          | nil =>
              simp only [bytesToSextets, sextetsToBytes, List.cons.injEq] at ih ⊢
              exact ⟨by omega, by omega, by omega, ih⟩
          | cons e rest3 =>
              cases rest3 with
              | nil =>
                  simp only [bytesToSextets, sextetsToBytes,
                    List.cons.injEq] at ih ⊢
                  exact ⟨by omega, by omega, by omega, ih⟩
              | cons f rest4 =>
                  simp only [bytesToSextets, sextetsToBytes,
                    List.cons.injEq] at ih ⊢
                  exact ⟨by omega, by omega, by omega, ih⟩

/-- The base64 round-trip: `atob (btoa bytes)` recovers any byte list. -/
lemma atob_btoa (bytes : List ℕ) (h : ∀ b ∈ bytes, b < 256) :
    atob (btoa bytes) = some bytes := by
  have hsex := bytesToSextets_lt bytes h
  have hlen := bytesToSextets_length bytes
  unfold btoa atob
  have hToList : (String.mk ((bytesToSextets bytes).map b64Char ++
      List.replicate (padLen bytes.length) '=')).toList =
      (bytesToSextets bytes).map b64Char ++
      List.replicate (padLen bytes.length) '=' := rfl
  rw [hToList]
  have hdrop : dropPad ((bytesToSextets bytes).map b64Char ++
      List.replicate (padLen bytes.length) '=') =
      (bytesToSextets bytes).map b64Char := by
    apply dropPad_pad
    · unfold padLen
      split_ifs <;> omega
    · intro ch hch
      rcases List.mem_map.mp hch with ⟨s, hs, rfl⟩
      exact b64Char_ne_eq s (hsex s hs)
    · rw [List.length_map, hlen]
      unfold padLen
      split_ifs <;> omega
  rw [hdrop]
  have hne1 : ¬ ((bytesToSextets bytes).map b64Char).length % 4 = 1 := by
    rw [List.length_map, hlen]
    split_ifs <;> omega
  rw [if_neg hne1, b64IndexList_map_b64Char _ hsex]
  simp only [sextetsToBytes_bytesToSextets bytes h]

/-! ### PCM16 buffer round-trip -/

/-- Bytes of an int16 store are genuine bytes. -/
lemma int16ToBytesLE_lt (v : ℤ) : ∀ b ∈ int16ToBytesLE v, b < 256 := by
  intro b hb
  unfold int16ToBytesLE at hb
  have h0 : 0 ≤ v % 65536 := Int.emod_nonneg v (by norm_num)
  have h1 : v % 65536 < 65536 := Int.emod_lt_of_pos v (by norm_num)
  simp only [List.mem_cons, List.mem_singleton] at hb
  rcases hb with rfl | rfl | h
  · omega
  · omega
  · simp at h

/-- All bytes of an `Int16Array` buffer are genuine bytes. -/
lemma int16BufferBytes_lt (pcm : List ℤ) : ∀ b ∈ int16BufferBytes pcm, b < 256 := by
  intro b hb
  unfold int16BufferBytes at hb
  rcases List.mem_flatten.mp hb with ⟨l, hl, hbl⟩
  rcases List.mem_map.mp hl with ⟨v, _, rfl⟩
  exact int16ToBytesLE_lt v b hbl

/-- The wrapped int16 value is always in the signed 16-bit range. -/
lemma toInt16_range (v : ℤ) : -32768 ≤ toInt16 v ∧ toInt16 v ≤ 32767 := by
  unfold toInt16
  omega

/-- Wrapping does nothing on values already in range. -/
lemma toInt16_eq_self (v : ℤ) (h1 : -32768 ≤ v) (h2 : v ≤ 32767) :
    toInt16 v = v := by
  unfold toInt16
  omega

/-- Every stored PCM16 sample is in the signed 16-bit range. -/
lemma sampleToPCM16_range (x : ℚ) :
    -32768 ≤ sampleToPCM16 x ∧ sampleToPCM16 x ≤ 32767 := by
  unfold sampleToPCM16
  exact toInt16_range _

/-- Reading one little-endian pair back gives the stored value. -/
lemma bytesToInt16LE_pair (v : ℤ) (h1 : -32768 ≤ v) (h2 : v ≤ 32767)
    (rest : List ℕ) :
    bytesToInt16LE (int16ToBytesLE v ++ rest) =
      v :: bytesToInt16LE rest := by
  show bytesToInt16LE ([(v % 65536).toNat % 256, (v % 65536).toNat / 256] ++
    rest) = v :: bytesToInt16LE rest
  simp only [List.cons_append, List.nil_append, bytesToInt16LE,
    List.cons.injEq, and_true]
  have h0 : 0 ≤ v % 65536 := Int.emod_nonneg v (by norm_num)
  have h3 : v % 65536 < 65536 := Int.emod_lt_of_pos v (by norm_num)
  refine ⟨?_, by simp⟩
  simp only [int16FromLE]
  split <;> omega

/-- Reading a whole buffer back gives the stored int16 list. -/
lemma bytesToInt16LE_buffer : ∀ pcm : List ℤ,
    (∀ v ∈ pcm, -32768 ≤ v ∧ v ≤ 32767) →
    bytesToInt16LE (int16BufferBytes pcm) = pcm
  | [], _ => rfl
  | v :: rest, h => by
      have hv := h v (by simp)
      have ih := bytesToInt16LE_buffer rest (fun x hx => h x (by simp [hx]))
      unfold int16BufferBytes at ih ⊢
      simp only [List.map_cons, List.flatten_cons]
      rw [bytesToInt16LE_pair v hv.1 hv.2, ih]

/-- An `Int16Array` buffer has an even number of bytes. -/
lemma int16BufferBytes_length (pcm : List ℤ) :
    (int16BufferBytes pcm).length = 2 * pcm.length := by
  induction pcm with
  | nil => rfl
  | cons v rest ih =>
      unfold int16BufferBytes at ih ⊢
      simp only [List.map_cons, List.flatten_cons, List.length_append, ih,
        List.length_cons]
      rw [show (int16ToBytesLE v).length = 2 from rfl]
      omega

/-- Indexing a list over its own range is just mapping over it. -/
lemma range_map_getD (l : List ℤ) (f : ℤ → ℚ) :
    (List.range l.length).map (fun i => f (l.getD i 0)) = l.map f := by
  induction l with
  | nil => rfl
  | cons x xs ih =>
      rw [List.length_cons, List.range_succ_eq_map, List.map_cons,
        List.map_cons, List.map_map]
      have hcomp : ((fun i => f ((x :: xs).getD i 0)) ∘ Nat.succ) =
          (fun i => f (xs.getD i 0)) := funext fun i => by simp
      rw [List.getD_cons_zero, hcomp, ih]

/-- With one channel, `decodeAudioData` is exactly the int16-to-float map
on the whole buffer. -/
lemma decodeAudioData_mono (data : List ℕ) (r : ℕ) (h : data.length % 2 = 0) :
    decodeAudioData data r 1 0 =
      some ((bytesToInt16LE data).map fun v : ℤ => (v : ℚ) / 32768) := by
  unfold decodeAudioData
  rw [if_pos h]
  show some ((List.range ((bytesToInt16LE data).length / 1)).map fun i =>
    (((bytesToInt16LE data).getD (i * 1 + 0) 0 : ℤ) : ℚ) / 32768) = _
  rw [Nat.div_one]
  rw [show (fun i => (((bytesToInt16LE data).getD (i * 1 + 0) 0 : ℤ) : ℚ) / 32768)
    = (fun i => (((bytesToInt16LE data).getD i 0 : ℤ) : ℚ) / 32768) from
    funext fun i => by rw [Nat.mul_one, Nat.add_zero]]
  rw [range_map_getD (bytesToInt16LE data) (fun v => (v : ℚ) / 32768)]

/-- All values stored by `float32ToPCM16` are in the int16 range. -/
lemma float32ToPCM16_range (samples : List ℚ) :
    ∀ v ∈ float32ToPCM16 samples, -32768 ≤ v ∧ v ≤ 32767 := by
  intro v hv
  rcases List.mem_map.mp hv with ⟨s, _, rfl⟩
  exact sampleToPCM16_range s

/-- The full codec pipeline: decoding an encoded frame yields exactly the
stored PCM16 values divided by 32768. -/
theorem decodeFrame_createAudioBlob (samples : List ℚ) :
    decodeFrame (createAudioBlob samples).data =
      .ok ((float32ToPCM16 samples).map fun v : ℤ => (v : ℚ) / 32768) := by
  have heven : (int16BufferBytes (float32ToPCM16 samples)).length % 2 = 0 := by
    rw [int16BufferBytes_length]
    omega
  have hdec : decode (createAudioBlob samples).data =
      some (int16BufferBytes (float32ToPCM16 samples)) := by
    simp only [createAudioBlob, decode, encode]
    exact atob_btoa _ (int16BufferBytes_lt _)
  simp only [decodeFrame, hdec, decodeAudioData_mono _ 24000 heven,
    bytesToInt16LE_buffer _ (float32ToPCM16_range samples)]

/-! ### Quantization error -/

/-- The clamped sample is in `[-1, 1]`. -/
lemma clamp1_range (x : ℚ) : -1 ≤ clamp1 x ∧ clamp1 x ≤ 1 := by
  unfold clamp1
  constructor
  · exact le_max_left _ _
  · exact max_le (by norm_num) (min_le_left _ _)

/-- Clamping does nothing on an in-range sample. -/
lemma clamp1_eq_self (x : ℚ) (h1 : -1 ≤ x) (h2 : x ≤ 1) : clamp1 x = x := by
  unfold clamp1
  rw [min_eq_right h2, max_eq_right h1]

/-- The scaled and truncated sample is already in the int16 range, so the
wrap of the `Int16Array` store never fires. -/
lemma truncScale_range (x : ℚ) :
    -32768 ≤ truncToInt (if clamp1 x < 0 then clamp1 x * 32768
      else clamp1 x * 32767) ∧
    truncToInt (if clamp1 x < 0 then clamp1 x * 32768
      else clamp1 x * 32767) ≤ 32767 := by
  obtain ⟨hc1, hc2⟩ := clamp1_range x
  by_cases hneg : clamp1 x < 0
  · rw [if_pos hneg]
    unfold truncToInt
    have hy1 : (-32768 : ℚ) ≤ clamp1 x * 32768 := by linarith
    have hy2 : clamp1 x * 32768 ≤ 0 := by nlinarith
    rw [if_pos (by nlinarith)]
    constructor
    · have := Int.ceil_le_ceil (α := ℚ) hy1
      simpa using this
    · have hz := Int.ceil_le_ceil (α := ℚ) hy2
      simp at hz
      omega
  · rw [if_neg hneg]
    push_neg at hneg
    unfold truncToInt
    have hy1 : (0 : ℚ) ≤ clamp1 x * 32767 := by nlinarith
    have hy2 : clamp1 x * 32767 ≤ 32767 := by nlinarith
    rw [if_neg (by linarith)]
    constructor
    · have hz := Int.floor_le_floor (α := ℚ) hy1
      simp at hz
      omega
    · have := Int.floor_le_floor (α := ℚ) hy2
      simpa using this

/-- `sampleToPCM16` never wraps: it is the truncated scaled clamp. -/
lemma sampleToPCM16_eq_trunc (x : ℚ) :
    sampleToPCM16 x =
      truncToInt (if clamp1 x < 0 then clamp1 x * 32768
        else clamp1 x * 32767) := by
  obtain ⟨h1, h2⟩ := truncScale_range x
  unfold sampleToPCM16
  exact toInt16_eq_self _ h1 h2

/-- Round-trip error of one in-range sample is at most `2 / 32768`. -/
lemma sampleToPCM16_close (x : ℚ) (h1 : -1 ≤ x) (h2 : x ≤ 1) :
    |((sampleToPCM16 x : ℤ) : ℚ) / 32768 - x| ≤ 2 / 32768 := by
  rw [sampleToPCM16_eq_trunc, clamp1_eq_self x h1 h2]
  by_cases hneg : x < 0
  · rw [if_pos hneg]
    unfold truncToInt
    rw [if_pos (by nlinarith)]
    have hle : x * 32768 ≤ (⌈x * 32768⌉ : ℚ) := Int.le_ceil _
    have hlt : (⌈x * 32768⌉ : ℚ) < x * 32768 + 1 := Int.ceil_lt_add_one _
    rw [abs_le]
    constructor <;> linarith
  · rw [if_neg hneg]
    push_neg at hneg
    unfold truncToInt
    rw [if_neg (by nlinarith)]
    have hle : (⌊x * 32767⌋ : ℚ) ≤ x * 32767 := Int.floor_le _
    have hlt : x * 32767 - 1 < (⌊x * 32767⌋ : ℚ) := by
      have := Int.lt_floor_add_one (x * 32767)
      linarith [Int.sub_one_lt_floor (x * 32767)]
    rw [abs_le]
    constructor <;> linarith

/-- Pointwise round-trip closeness for a list of in-range samples. -/
lemma forall2_close : ∀ (l : List ℚ), (∀ s ∈ l, -1 ≤ s ∧ s ≤ 1) →
    List.Forall₂ (fun d s => |d - s| ≤ 2 / 32768)
      (l.map fun s => ((sampleToPCM16 s : ℤ) : ℚ) / 32768) l
  | [], _ => List.Forall₂.nil
  | s :: rest, h => by
      rw [List.map_cons]
      exact List.Forall₂.cons
        (sampleToPCM16_close s (h s (by simp)).1 (h s (by simp)).2)
        (forall2_close rest fun t ht => h t (by simp [ht]))

/-! ### Claim C2 -/

/-- Claim C2 as stated is false: the sample `9999/10000` lies in `[-1, 1]`
but decoding its encoded frame gives `32763/32768`, off by more than the
claimed quantization error `1/32768` (non-negative samples are scaled by
32767 on encode yet divided by 32768 on decode). -/
theorem C2_counterexample :
    (-1 ≤ (9999/10000 : ℚ) ∧ (9999/10000 : ℚ) ≤ 1) ∧
    decodeFrame (createAudioBlob [9999/10000]).data =
      Except.ok [(32763 : ℚ)/32768] ∧
    ¬ |(32763 : ℚ)/32768 - 9999/10000| ≤ 1/32768 := by
  have hval : sampleToPCM16 (9999/10000) = 32763 := by
    rw [sampleToPCM16_eq_trunc, clamp1_eq_self _ (by norm_num) (by norm_num)]
    rw [if_neg (by norm_num)]
    unfold truncToInt
    rw [if_neg (by norm_num)]
    norm_num
  refine ⟨⟨by norm_num, by norm_num⟩, ?_, ?_⟩
  · rw [decodeFrame_createAudioBlob]
    simp [float32ToPCM16, hval]
  · rw [abs_of_neg (by norm_num)]
    norm_num

/-- Claim C2 (amended): for every float array with values in `[-1, 1]`,
`decodeFrame (encodeFrame samples)` succeeds and reproduces each sample to
within quantization error `2/32768` (not `1/32768`: non-negative samples
are scaled by 32767 on encode but divided by 32768 on decode). -/
theorem C2_codec_roundtrip (samples : List ℚ)
    (h : ∀ s ∈ samples, -1 ≤ s ∧ s ≤ 1) :
    ∃ out, decodeFrame (createAudioBlob samples).data = Except.ok out ∧
      List.Forall₂ (fun d s => |d - s| ≤ 2 / 32768) out samples := by
  refine ⟨_, decodeFrame_createAudioBlob samples, ?_⟩
  unfold float32ToPCM16
  rw [List.map_map]
  exact forall2_close samples h

/-- Witness for the amended C2 at the in-range sample `1/2`. -/
theorem C2_codec_roundtrip_witness :
    ∃ out, decodeFrame (createAudioBlob [(1:ℚ)/2]).data = Except.ok out ∧
      List.Forall₂ (fun d s => |d - s| ≤ 2 / 32768) out [(1:ℚ)/2] :=
  C2_codec_roundtrip [(1:ℚ)/2] (by
    intro s hs
    rw [List.mem_singleton] at hs
    subst hs
    norm_num)

/-! ### Claim C7 -/

/-- Claim C7: `encodeFrame` (`createAudioBlob`) is total, clamps every
sample to `[-1, 1]` and scales negatives by 32768 and non-negatives by
32767, so every encoded value lies within the int16 range; in particular
the `Int16Array` wrap never fires (`sampleToPCM16` equals the bare
truncated scaled clamp), and the out-of-range inputs `1.5` and `-2.0`
encode to `32767` and `-32768`. -/
theorem C7_encodeFrame_clamps (samples : List ℚ) (v : ℤ)
    (hv : v ∈ float32ToPCM16 samples) :
    (-32768 ≤ v ∧ v ≤ 32767) ∧
    (∀ x : ℚ, sampleToPCM16 x =
      truncToInt (if clamp1 x < 0 then clamp1 x * 32768
        else clamp1 x * 32767)) ∧
    float32ToPCM16 [3/2, -2] = [32767, -32768] := by
  refine ⟨?_, sampleToPCM16_eq_trunc, ?_⟩
  · rcases List.mem_map.mp hv with ⟨s, _, rfl⟩
    exact sampleToPCM16_range s
  · have h1 : sampleToPCM16 (3/2) = 32767 := by
      rw [sampleToPCM16_eq_trunc]
      have hcl : clamp1 (3/2 : ℚ) = 1 := by
        unfold clamp1
        rw [min_eq_left (by norm_num), max_eq_right (by norm_num)]
      rw [hcl, if_neg (by norm_num)]
      unfold truncToInt
      rw [if_neg (by norm_num)]
      norm_num
    have h2 : sampleToPCM16 (-2) = -32768 := by
      rw [sampleToPCM16_eq_trunc]
      have hcl : clamp1 (-2 : ℚ) = -1 := by
        unfold clamp1
        rw [min_eq_right (by norm_num), max_eq_left (by norm_num)]
      rw [hcl, if_pos (by norm_num)]
      unfold truncToInt
      rw [if_pos (by norm_num)]
      rw [show ((-1 : ℚ) * 32768) = ((-32768 : ℤ) : ℚ) from by norm_num]
      rw [Int.ceil_intCast]
    simp [float32ToPCM16, h1, h2]

/-- Witness for C7: the encoded value of the out-of-range sample `1.5` is
`32767`, inside the int16 range. -/
theorem C7_encodeFrame_clamps_witness :
    (32767 : ℤ) ∈ float32ToPCM16 [3/2, -2] ∧
    (-32768 ≤ (32767 : ℤ) ∧ (32767 : ℤ) ≤ 32767) := by
  have hmem : (32767 : ℤ) ∈ float32ToPCM16 [3/2, -2] := by
    have hcl1 : clamp1 (3/2 : ℚ) = 1 := by
      unfold clamp1
      rw [min_eq_left (by norm_num), max_eq_right (by norm_num)]
    have h1 : sampleToPCM16 (3/2) = 32767 := by
      rw [sampleToPCM16_eq_trunc, hcl1, if_neg (by norm_num)]
      unfold truncToInt
      rw [if_neg (by norm_num)]
      norm_num
    simp [float32ToPCM16, h1]
  exact ⟨hmem, (C7_encodeFrame_clamps [3/2, -2] 32767 hmem).1⟩

/-! ### Playback scheduler: the `onmessage` audio branch of
`src/hooks/useWAI.ts` (lines 295-307 and 683-698) -/

/-- A scheduled playback unit: an `AudioBufferSourceNode` with the start
time passed to `source.start(start)` and its buffer duration. -/
structure PlaybackUnit where
  startTime : ℚ
  duration : ℚ
  deriving DecidableEq

/-- Scheduler state: the `audioSources` pending set (kept in insertion
order), `nextStartTimeRef.current`, and the speaking flag. -/
structure SchedulerState where
  pending : List PlaybackUnit
  nextStartTime : ℚ
  isSpeaking : Bool
  deriving DecidableEq

/-- Initial refs: `nextStartTimeRef.current = 0`, empty set, not
speaking. -/
def initScheduler : SchedulerState :=
  { pending := [], nextStartTime := 0, isSpeaking := false }

/-- Scheduling step of the audio branch (`useWAI.ts` lines 297-306):
`setIsSpeaking(true)`;
`start = Math.max(nextStartTimeRef.current, outputCtx.currentTime)`;
`source.start(start)`; `nextStartTimeRef.current = start + duration`;
`audioSources.add(source)`.  `now` is `outputCtx.currentTime`. -/
def enqueueUnit (now dur : ℚ) (s : SchedulerState) : SchedulerState :=
  { pending := s.pending ++
      [{ startTime := max s.nextStartTime now, duration := dur }],
    nextStartTime := max s.nextStartTime now + dur,
    isSpeaking := true }

/-- The interruption branch of `onmessage` (`useWAI.ts` lines 291-294):
stop every pending source (first component), clear the set, reset
`nextStartTimeRef.current = 0`, `setIsSpeaking(false)`. -/
def interrupt (s : SchedulerState) : List PlaybackUnit × SchedulerState :=
  (s.pending,
   { pending := [], nextStartTime := 0, isSpeaking := false })

/-- `source.onended` (`useWAI.ts` line 306): remove the unit from the
set; when the set becomes empty, signal not speaking. -/
def onEnded (u : PlaybackUnit) (s : SchedulerState) : SchedulerState :=
  { pending := s.pending.erase u,
    nextStartTime := s.nextStartTime,
    isSpeaking := if (s.pending.erase u).isEmpty then false else s.isSpeaking }

/-- Units produced by a run of `enqueueUnit` with running counter `next`:
chunk `k` arrives at clock time `tₖ` with duration `dₖ`. -/
def scheduleRun (next : ℚ) : List (ℚ × ℚ) → List PlaybackUnit
  | [] => []
  | (t, d) :: rest =>
      { startTime := max next t, duration := d } ::
        scheduleRun (max next t + d) rest

/-- Folding the real `enqueueUnit` over an arrival/duration list. -/
def runEnqueues (chunks : List (ℚ × ℚ)) (s : SchedulerState) :
    SchedulerState :=
  chunks.foldl (fun st td => enqueueUnit td.1 td.2 st) s

/-- `runEnqueues` appends exactly the `scheduleRun` units. -/
lemma runEnqueues_pending : ∀ (chunks : List (ℚ × ℚ)) (s : SchedulerState),
    (runEnqueues chunks s).pending =
      s.pending ++ scheduleRun s.nextStartTime chunks
  | [], s => by simp [runEnqueues, scheduleRun]
  | (t, d) :: rest, s => by
      have ih := runEnqueues_pending rest (enqueueUnit t d s)
      simp only [runEnqueues, List.foldl_cons] at ih ⊢
      rw [ih]
      simp [enqueueUnit, scheduleRun]

/-- `scheduleRun` produces one unit per chunk. -/
lemma scheduleRun_length : ∀ (chunks : List (ℚ × ℚ)) (next : ℚ),
    (scheduleRun next chunks).length = chunks.length
  | [], _ => rfl
  | (t, d) :: rest, next => by
      simp only [scheduleRun, List.length_cons, scheduleRun_length rest]

/-- Every scheduled start time is at least the running counter. -/
lemma scheduleRun_start_ge : ∀ (chunks : List (ℚ × ℚ)) (next : ℚ),
    (∀ c ∈ chunks, 0 ≤ c.2) →
    ∀ u ∈ scheduleRun next chunks, next ≤ u.startTime
  | [], _, _, u, hu => by simp [scheduleRun] at hu
  | (t, d) :: rest, next, h, u, hu => by
      simp only [scheduleRun, List.mem_cons] at hu
      rcases hu with rfl | hu
      · exact le_max_left _ _
      · have hd : (0 : ℚ) ≤ d := h (t, d) (by simp)
        have hrec := scheduleRun_start_ge rest (max next t + d)
          (fun c hc => h c (by simp [hc])) u hu
        calc next ≤ max next t := le_max_left _ _
          _ ≤ max next t + d := by linarith
          _ ≤ u.startTime := hrec

/-- Durations of scheduled units are the chunk durations. -/
lemma scheduleRun_dur_nonneg : ∀ (chunks : List (ℚ × ℚ)) (next : ℚ),
    (∀ c ∈ chunks, 0 ≤ c.2) →
    ∀ u ∈ scheduleRun next chunks, 0 ≤ u.duration
  | [], _, _, u, hu => by simp [scheduleRun] at hu
  | (t, d) :: rest, next, h, u, hu => by
      simp only [scheduleRun, List.mem_cons] at hu
      rcases hu with rfl | hu
      · exact h (t, d) (by simp)
      · exact scheduleRun_dur_nonneg rest _ (fun c hc => h c (by simp [hc])) u hu

/-- No two scheduled units overlap: each ends no later than every later
one starts. -/
lemma scheduleRun_pairwise : ∀ (chunks : List (ℚ × ℚ)) (next : ℚ),
    (∀ c ∈ chunks, 0 ≤ c.2) →
    List.Pairwise (fun u v => u.startTime + u.duration ≤ v.startTime)
      (scheduleRun next chunks)
  | [], _, _ => List.Pairwise.nil
  | (t, d) :: rest, next, h => by
      simp only [scheduleRun]
      refine List.Pairwise.cons ?_
        (scheduleRun_pairwise rest _ (fun c hc => h c (by simp [hc])))
      intro v hv
      have hge := scheduleRun_start_ge rest (max next t + d)
        (fun c hc => h c (by simp [hc])) v hv
      simpa using hge

/-- The start time of chunk `k+1` is the maximum of chunk `k`'s end and
its own arrival time. -/
lemma scheduleRun_adjacent : ∀ (chunks : List (ℚ × ℚ)) (next : ℚ) (k : ℕ),
    k + 1 < chunks.length →
    ((scheduleRun next chunks).getD (k + 1) ⟨0, 0⟩).startTime =
      max (((scheduleRun next chunks).getD k ⟨0, 0⟩).startTime +
            ((scheduleRun next chunks).getD k ⟨0, 0⟩).duration)
        ((chunks.getD (k + 1) (0, 0)).1)
  | [], _, k, hk => by simp at hk
  | [c], _, k, hk => by simp at hk
  | (t1, d1) :: (t2, d2) :: rest, next, 0, hk => by
      simp [scheduleRun, List.getD_cons_zero, List.getD_cons_succ]
  | (t1, d1) :: (t2, d2) :: rest, next, Nat.succ k, hk => by
      simp only [scheduleRun, List.getD_cons_succ]
      have := scheduleRun_adjacent ((t2, d2) :: rest) (max next t1 + d1) k
        (by simpa using hk)
      simpa [scheduleRun] using this

/-- A list element read by `getD` within bounds is a member. -/
lemma getD_mem_of_lt (l : List PlaybackUnit) (k : ℕ) (d : PlaybackUnit)
    (h : k < l.length) : l.getD k d ∈ l := by
  rw [List.getD_eq_getElem?_getD, List.getElem?_eq_getElem h]
  exact List.getElem_mem h

/-! ### Claim C1 -/

/-- Claim C1: in a run of the scheduler from its initial state over chunks
arriving at clock times `tₖ` with (non-negative) durations `dₖ`, every
start time is `max(previousUnitEnd, arrivalClockTime)`; consequently a
chunk enqueued no later than its predecessor's scheduled end starts
exactly at that end, start times are monotonically non-decreasing, and no
two playback intervals overlap (pairwise, not just adjacently). -/
theorem C1_gapless_scheduling (chunks : List (ℚ × ℚ))
    (hd : ∀ c ∈ chunks, 0 ≤ c.2) (k : ℕ) (hk : k + 1 < chunks.length) :
    List.Pairwise (fun u v => u.startTime + u.duration ≤ v.startTime)
      (runEnqueues chunks initScheduler).pending ∧
    ((runEnqueues chunks initScheduler).pending.getD (k + 1) ⟨0, 0⟩).startTime =
      max (((runEnqueues chunks initScheduler).pending.getD k ⟨0, 0⟩).startTime +
            ((runEnqueues chunks initScheduler).pending.getD k ⟨0, 0⟩).duration)
        ((chunks.getD (k + 1) (0, 0)).1) ∧
    ((runEnqueues chunks initScheduler).pending.getD k ⟨0, 0⟩).startTime ≤
      ((runEnqueues chunks initScheduler).pending.getD (k + 1) ⟨0, 0⟩).startTime ∧
    ((runEnqueues chunks initScheduler).pending.getD k ⟨0, 0⟩).startTime +
        ((runEnqueues chunks initScheduler).pending.getD k ⟨0, 0⟩).duration ≤
      ((runEnqueues chunks initScheduler).pending.getD (k + 1) ⟨0, 0⟩).startTime ∧
    ((chunks.getD (k + 1) (0, 0)).1 ≤
        ((runEnqueues chunks initScheduler).pending.getD k ⟨0, 0⟩).startTime +
          ((runEnqueues chunks initScheduler).pending.getD k ⟨0, 0⟩).duration →
      ((runEnqueues chunks initScheduler).pending.getD (k + 1) ⟨0, 0⟩).startTime =
        ((runEnqueues chunks initScheduler).pending.getD k ⟨0, 0⟩).startTime +
          ((runEnqueues chunks initScheduler).pending.getD k ⟨0, 0⟩).duration) := by
  have hpend : (runEnqueues chunks initScheduler).pending =
      scheduleRun 0 chunks := by
    rw [runEnqueues_pending]
    rfl
  rw [hpend]
  have hadj := scheduleRun_adjacent chunks 0 k hk
  have hlen := scheduleRun_length chunks 0
  have hkd : 0 ≤ ((scheduleRun 0 chunks).getD k ⟨0, 0⟩).duration := by
    apply scheduleRun_dur_nonneg chunks 0 hd
    apply getD_mem_of_lt
    omega
  refine ⟨scheduleRun_pairwise chunks 0 hd, hadj, ?_, ?_, ?_⟩
  · rw [hadj]
    have := le_max_left
      (((scheduleRun 0 chunks).getD k ⟨0, 0⟩).startTime +
        ((scheduleRun 0 chunks).getD k ⟨0, 0⟩).duration)
      ((chunks.getD (k + 1) (0, 0)).1)
    linarith
  · rw [hadj]
    exact le_max_left _ _
  · intro harr
    rw [hadj]
    exact max_eq_left harr

/-- Witness for C1: three chunks of duration `1/2` arriving at clock
times `0`, `1/4` (before the first chunk ends) and `2`. -/
theorem C1_gapless_scheduling_witness :
    (∀ c ∈ [((0 : ℚ), (1 : ℚ)/2), (1/4, 1/2), (2, 1/2)], 0 ≤ c.2) ∧
    (0 + 1 < ([((0 : ℚ), (1 : ℚ)/2), (1/4, 1/2), (2, 1/2)]).length) ∧
    ((runEnqueues [((0 : ℚ), (1 : ℚ)/2), (1/4, 1/2), (2, 1/2)]
        initScheduler).pending.getD 0 ⟨0, 0⟩).startTime +
      ((runEnqueues [((0 : ℚ), (1 : ℚ)/2), (1/4, 1/2), (2, 1/2)]
        initScheduler).pending.getD 0 ⟨0, 0⟩).duration ≤
      ((runEnqueues [((0 : ℚ), (1 : ℚ)/2), (1/4, 1/2), (2, 1/2)]
        initScheduler).pending.getD 1 ⟨0, 0⟩).startTime := by
  have h1 : ∀ c ∈ [((0 : ℚ), (1 : ℚ)/2), (1/4, 1/2), (2, 1/2)], 0 ≤ c.2 := by
    intro c hc
    simp only [List.mem_cons, List.not_mem_nil, or_false] at hc
    rcases hc with rfl | rfl | rfl <;> norm_num
  have h2 : (0 : ℕ) + 1 <
      ([((0 : ℚ), (1 : ℚ)/2), (1/4, 1/2), (2, 1/2)]).length := by
    simp
  exact ⟨h1, h2,
    (C1_gapless_scheduling [((0 : ℚ), (1 : ℚ)/2), (1/4, 1/2), (2, 1/2)]
      h1 0 h2).2.2.2.1⟩

/-! ### Claim C3 -/

/-- Claim C3 as stated is false in one respect: after three chunks have
been enqueued (here while the output clock read up to `5`), `interrupt`
resets `nextStartTimeRef.current` to `0` — not to the device clock's
current time `5`. -/
theorem C3_counterexample :
    (interrupt (runEnqueues [((1 : ℚ), (1 : ℚ)/2), (2, 1/2), (5, 1/2)]
        initScheduler)).2.nextStartTime = 0 ∧
    ¬ (interrupt (runEnqueues [((1 : ℚ), (1 : ℚ)/2), (2, 1/2), (5, 1/2)]
        initScheduler)).2.nextStartTime = 5 := by
  constructor
  · rfl
  · intro h
    have : (0 : ℚ) = 5 := h
    norm_num at this

/-- Claim C3 (amended): from any scheduler state, an interruption stops
every unit of the pending set, leaves the set empty with the speaking
flag down, and resets `nextAvailableStartTime` to `0` (not to the clock
reading); because the device clock is non-negative, the next `enqueue`
at clock time `now` then starts its chunk at `max 0 now = now`, the
current device clock time, rather than at the stale counter. -/
theorem C3_interrupt_clears (s : SchedulerState) (now dur : ℚ)
    (hnow : 0 ≤ now) :
    (interrupt s).1 = s.pending ∧
    (interrupt s).2.pending = [] ∧
    (interrupt s).2.isSpeaking = false ∧
    (interrupt s).2.nextStartTime = 0 ∧
    (enqueueUnit now dur (interrupt s).2).pending =
      [{ startTime := now, duration := dur }] := by
  refine ⟨rfl, rfl, rfl, rfl, ?_⟩
  simp [enqueueUnit, interrupt, max_eq_right hnow]

/-- Witness for the amended C3: three enqueued chunks, an interruption,
then an enqueue at clock time `6`. -/
theorem C3_interrupt_clears_witness :
    (0 : ℚ) ≤ 6 ∧
    (interrupt (runEnqueues [((1 : ℚ), (1 : ℚ)/2), (2, 1/2), (5, 1/2)]
        initScheduler)).2.pending = [] ∧
    (enqueueUnit 6 (1/2) (interrupt (runEnqueues
        [((1 : ℚ), (1 : ℚ)/2), (2, 1/2), (5, 1/2)] initScheduler)).2).pending =
      [{ startTime := 6, duration := 1/2 }] := by
  have h := C3_interrupt_clears
    (runEnqueues [((1 : ℚ), (1 : ℚ)/2), (2, 1/2), (5, 1/2)] initScheduler)
    6 (1/2) (by norm_num)
  exact ⟨by norm_num, h.2.1, h.2.2.2.2⟩

/-! ### Claim C10 -/

/-- Claim C10: on every even-length byte buffer the mono playback decoder
`decodeAudioData(data, ctx, rate, 1)` produces exactly the little-endian
int16 values divided by 32768, which is precisely what
`convertPCM16ToFloat32` produces on the same bytes. -/
theorem C10_decode_paths_agree (bytes : List ℕ) (h : bytes.length % 2 = 0) :
    decodeAudioData bytes 24000 1 0 =
      some ((bytesToInt16LE bytes).map fun v : ℤ => (v : ℚ) / 32768) ∧
    decodeAudioData bytes 24000 1 0 = convertPCM16ToFloat32 bytes := by
  refine ⟨decodeAudioData_mono bytes 24000 h, ?_⟩
  rw [decodeAudioData_mono bytes 24000 h]
  unfold convertPCM16ToFloat32
  rw [if_pos h]

/-- Witness for C10 on the two-byte buffer `[0, 128]` (the int16 value
`-32768`). -/
theorem C10_decode_paths_agree_witness :
    ([0, 128] : List ℕ).length % 2 = 0 ∧
    decodeAudioData [0, 128] 24000 1 0 = convertPCM16ToFloat32 [0, 128] :=
  ⟨by decide, (C10_decode_paths_agree [0, 128] (by decide)).2⟩

/-! ### Inbound audio-chunk handler: decode failures (claim C8) -/

/-- The audio branch of `onmessage` including its decode step
(`useWAI.ts` lines 295-307): `setIsSpeaking(true)` runs first; then
`decodeAudioData(decode(base64Audio), outputCtx, 24000, 1)` — there is no
`try`/`catch`, so a throw there aborts this `onmessage` invocation
(modelled as `some e` in the second component) after the speaking flag was
already set; on success the decoded buffer (duration
`samples.length / 24000` seconds at 24 kHz) is scheduled. -/
def handleAudioChunk (now : ℚ) (base64Audio : String) (s : SchedulerState) :
    SchedulerState × Option DecodeErr :=
  let s1 : SchedulerState := { s with isSpeaking := true }
  match decodeFrame base64Audio with
  | .error e => (s1, some e)
  | .ok samples => (enqueueUnit now ((samples.length : ℚ) / 24000) s1, none)

/-- Claim C8 as stated is false: `"AA=="` is valid base64 (it decodes to
the single byte `0`), yet `decodeFrame` fails on it — the
`Int16Array` constructor throws on the odd byte count — so decoding does
not fail *only* on invalid base64. -/
theorem C8_counterexample :
    decode "AA==" = some [0] ∧
    decodeFrame "AA==" = Except.error DecodeErr.oddByteLength := by
  have hdec : decode "AA==" = some [0] := by decide
  refine ⟨hdec, ?_⟩
  simp [decodeFrame, hdec, decodeAudioData]

/-- Claim C8 (amended): `decodeFrame` fails exactly when its input is not
valid base64 (`invalidBase64`) or decodes to an odd number of bytes
(`oddByteLength`).  Such a failure propagates out of that `onmessage`
invocation (there is no `try`/`catch`; the speaking flag has already been
set), but it does not abort the scheduler: the pending set and the
running start-time counter are untouched, and the next decodable chunk is
scheduled exactly as if the bad chunk had never arrived. -/
theorem C8_decode_failure_isolated (now now2 : ℚ) (bad good : String)
    (s : SchedulerState) (e : DecodeErr) (samples : List ℚ)
    (hbad : decodeFrame bad = Except.error e)
    (hgood : decodeFrame good = Except.ok samples) :
    handleAudioChunk now bad s = ({ s with isSpeaking := true }, some e) ∧
    (handleAudioChunk now bad s).1.pending = s.pending ∧
    (handleAudioChunk now bad s).1.nextStartTime = s.nextStartTime ∧
    handleAudioChunk now2 good (handleAudioChunk now bad s).1 =
      ({ pending := s.pending ++
          [{ startTime := max s.nextStartTime now2,
             duration := (samples.length : ℚ) / 24000 }],
         nextStartTime := max s.nextStartTime now2 +
           (samples.length : ℚ) / 24000,
         isSpeaking := true }, none) ∧
    (∀ b : String, decodeFrame b = Except.error DecodeErr.invalidBase64 ↔
      decode b = none) ∧
    (∀ b : String, decodeFrame b = Except.error DecodeErr.oddByteLength ↔
      ∃ bytes, decode b = some bytes ∧ bytes.length % 2 = 1) := by
  refine ⟨?_, ?_, ?_, ?_, ?_, ?_⟩
  · simp [handleAudioChunk, hbad]
  · simp [handleAudioChunk, hbad]
  · simp [handleAudioChunk, hbad]
  · simp [handleAudioChunk, hbad, hgood, enqueueUnit]
  · intro b
    unfold decodeFrame
    cases hb : decode b with
    | none => simp
    | some bytes =>
        simp only [hb]
        unfold decodeAudioData
        split_ifs with hev
        · simp
        · simp
  · intro b
    unfold decodeFrame
    cases hb : decode b with
    | none => simp
    | some bytes =>
        simp only [hb]
        unfold decodeAudioData
        split_ifs with hev
        · simp
          omega
        · simp
          omega

/-- Witness for the amended C8: the bad chunk `"AA=="` followed by the
good chunk `"AAA="` (which decodes to the single sample `0`). -/
theorem C8_decode_failure_isolated_witness :
    decodeFrame "AA==" = Except.error DecodeErr.oddByteLength ∧
    decodeFrame "AAA=" = Except.ok [0] ∧
    handleAudioChunk 0 "AA==" initScheduler =
      ({ initScheduler with isSpeaking := true },
        some DecodeErr.oddByteLength) := by
  have hdec : decode "AA==" = some [0] := by decide
  have hbad : decodeFrame "AA==" = Except.error DecodeErr.oddByteLength := by
    simp [decodeFrame, hdec, decodeAudioData]
  have hdec2 : decode "AAA=" = some [0, 0] := by decide
  have hgood : decodeFrame "AAA=" = Except.ok [0] := by
    simp [decodeFrame, hdec2, decodeAudioData, bytesToInt16LE, int16FromLE]
  exact ⟨hbad, hgood,
    (C8_decode_failure_isolated 0 1 "AA==" "AAA=" initScheduler
      DecodeErr.oddByteLength [0] hbad hgood).1⟩

/-! ### Capture pipeline: `processor.onaudioprocess`
(`useWAI.ts` lines 281-287) and claim C4 -/

/-- The per-frame capture callback: `if (isSpeakingRef.current) return;`
is re-evaluated on every frame; when the gate is open the frame is
encoded with `createAudioBlob` and handed to
`session.sendRealtimeInput`.  The result is the blob sent for this frame,
if any.  (The volume-meter side effect — an RMS pushed through
`Math.sqrt`, scaled by 10 and clamped to 1 — is irrational, cosmetic, and
referenced by no claim; it is not modelled.) -/
def onAudioProcess (isSpeakingNow : Bool) (inputData : List ℚ) :
    Option BlobData :=
  if isSpeakingNow then none else some (createAudioBlob inputData)

/-- The frames actually sent over a capture run, each frame paired with
the speaking flag read at its callback. -/
def sentFrames (frames : List (Bool × List ℚ)) : List BlobData :=
  frames.filterMap fun f => onAudioProcess f.1 f.2

/-- Claim C4: while the speaking flag is set the capture callback sends
nothing; as soon as it is clear, the very next captured frame is encoded
and sent; over any run, exactly the frames captured with the flag clear
are sent, in order — the gate is a per-frame check. -/
theorem C4_half_duplex_gate (samples : List ℚ)
    (frames : List (Bool × List ℚ)) :
    onAudioProcess true samples = none ∧
    onAudioProcess false samples = some (createAudioBlob samples) ∧
    sentFrames frames =
      (frames.filter fun f => !f.1).map fun f => createAudioBlob f.2 := by
  refine ⟨rfl, rfl, ?_⟩
  induction frames with
  | nil => rfl
  | cons f rest ih =>
      cases f with
      | mk b frameData =>
          cases b <;>
            simp [sentFrames, onAudioProcess, List.filter_cons] <;>
            simpa [sentFrames] using ih

/-! ### Turn transcripts: the transcription branch of `onmessage`
(`useWAI.ts` lines 666-681) and claim C5 -/

/-- Transcript-relevant events of one live session. -/
inductive TranscriptEvent
  | userSpan (text : String)
  | modelSpan (text : String)
  | interrupted
  | turnComplete
  deriving DecidableEq

/-- JS `String.prototype.trim` whitespace test, restricted to the ASCII
whitespace that can occur in transcription text. -/
def isJsWhitespace (c : Char) : Bool :=
  c == ' ' || c == '\t' || c == '\n' || c == '\r'

/-- JS `String.prototype.trim`: strip leading and trailing whitespace. -/
def jsTrim (s : String) : String :=
  String.mk
    (((s.toList.dropWhile isJsWhitespace).reverse.dropWhile
      isJsWhitespace).reverse)

/-- Speaker tag of an appended chat-history entry. -/
inductive Speaker
  | user
  | model
  deriving DecidableEq

/-- Transcript state: the accumulator `transcriptionRef.current` and the
chat-history entries appended so far (via `addMessage`). -/
structure TranscriptState where
  userAcc : String
  modelAcc : String
  history : List (Speaker × String)
  deriving DecidableEq

/-- One step of the transcription part of `onmessage`
(`useWAI.ts` lines 666-681): partial spans append with `+=`; an
interruption discards the accumulator; `turnComplete` appends one
chat-history entry per field whose `trim()` is non-empty (the untrimmed
text, user first, then model) and resets the accumulator. -/
def handleTranscript (s : TranscriptState) :
    TranscriptEvent → TranscriptState
  | .userSpan t => { s with userAcc := s.userAcc ++ t }
  | .modelSpan t => { s with modelAcc := s.modelAcc ++ t }
  | .interrupted => { s with userAcc := "", modelAcc := "" }
  | .turnComplete =>
      let h1 := if jsTrim s.userAcc ≠ ""
        then s.history ++ [(Speaker.user, s.userAcc)] else s.history
      let h2 := if jsTrim s.modelAcc ≠ ""
        then h1 ++ [(Speaker.model, s.modelAcc)] else h1
      { userAcc := "", modelAcc := "", history := h2 }

/-- Folding the handler over an event sequence. -/
def runTranscript (s : TranscriptState) (evs : List TranscriptEvent) :
    TranscriptState :=
  evs.foldl handleTranscript s

/-- The user text spans of an event sequence, in order. -/
def userSpans (evs : List TranscriptEvent) : List String :=
  evs.filterMap fun e =>
    match e with
    | .userSpan t => some t
    | _ => none

/-- The model text spans of an event sequence, in order. -/
def modelSpans (evs : List TranscriptEvent) : List String :=
  evs.filterMap fun e =>
    match e with
    | .modelSpan t => some t
    | _ => none

/-- In-order concatenation of a list of text spans. -/
def concatSpans : List String → String
  | [] => ""
  | t :: rest => t ++ concatSpans rest

/-- A run of only partial spans accumulates their in-order
concatenations and touches no history. -/
lemma runTranscript_spans : ∀ (evs : List TranscriptEvent)
    (s : TranscriptState),
    (∀ e ∈ evs, e ≠ .turnComplete ∧ e ≠ .interrupted) →
    runTranscript s evs =
      { userAcc := s.userAcc ++ concatSpans (userSpans evs),
        modelAcc := s.modelAcc ++ concatSpans (modelSpans evs),
        history := s.history }
  | [], s, _ => by
      simp [runTranscript, userSpans, modelSpans, concatSpans]
  | e :: rest, s, h => by
      have ih := runTranscript_spans rest
      have hrest : ∀ x ∈ rest, x ≠ TranscriptEvent.turnComplete ∧
          x ≠ TranscriptEvent.interrupted :=
        fun x hx => h x (by simp [hx])
      cases e with
      | userSpan t =>
          simp only [runTranscript, List.foldl_cons, handleTranscript] at ih ⊢
          rw [ih _ hrest]
          simp [userSpans, modelSpans, concatSpans, String.append_assoc]
      | modelSpan t =>
          simp only [runTranscript, List.foldl_cons, handleTranscript] at ih ⊢
          rw [ih _ hrest]
          simp [userSpans, modelSpans, concatSpans, String.append_assoc]
      | interrupted => exact absurd rfl (h _ (by simp)).2
      | turnComplete => exact absurd rfl (h _ (by simp)).1

/-! ### Claim C5 -/

/-- Claim C5 as stated is false in one respect: a whitespace-only partial
span leaves the accumulator non-empty (`" " ≠ ""`), yet the following
turn-complete appends no chat-history entry, because the code flushes
only fields whose `trim()` is non-empty. -/
theorem C5_counterexample :
    (runTranscript { userAcc := "", modelAcc := "", history := [] }
      [TranscriptEvent.userSpan " "]).userAcc = " " ∧
    (" " : String) ≠ "" ∧
    (runTranscript { userAcc := "", modelAcc := "", history := [] }
      [TranscriptEvent.userSpan " ", TranscriptEvent.turnComplete]).history
      = [] := by
  refine ⟨rfl, by decide, ?_⟩
  show (handleTranscript
    { userAcc := " ", modelAcc := "", history := [] }
    TranscriptEvent.turnComplete).history = []
  have h1 : jsTrim " " = "" := by decide
  have h2 : jsTrim "" = "" := by decide
  simp [handleTranscript, h1, h2]

/-- Claim C5 (amended): any sequence of partial transcript events
followed by a turn-complete event, starting from an empty accumulator,
appends exactly one chat-history entry per speaker field whose
whitespace-trimmed concatenation is non-empty — carrying the in-order
concatenation of that speaker's spans — and empties the accumulator;
a turn-complete arriving with the accumulator empty appends nothing. -/
theorem C5_turn_flush (evs : List TranscriptEvent) (s : TranscriptState)
    (hpart : ∀ e ∈ evs, e ≠ TranscriptEvent.turnComplete ∧
      e ≠ TranscriptEvent.interrupted)
    (hu : s.userAcc = "") (hm : s.modelAcc = "") :
    (runTranscript s (evs ++ [TranscriptEvent.turnComplete])).history =
      (if jsTrim (concatSpans (userSpans evs)) ≠ ""
        then s.history ++ [(Speaker.user, concatSpans (userSpans evs))]
        else s.history) ++
      (if jsTrim (concatSpans (modelSpans evs)) ≠ ""
        then [(Speaker.model, concatSpans (modelSpans evs))] else []) ∧
    (runTranscript s (evs ++ [TranscriptEvent.turnComplete])).userAcc = "" ∧
    (runTranscript s (evs ++ [TranscriptEvent.turnComplete])).modelAcc = "" ∧
    (runTranscript s [TranscriptEvent.turnComplete]).history = s.history := by
  have hsplit : runTranscript s (evs ++ [TranscriptEvent.turnComplete]) =
      handleTranscript (runTranscript s evs) TranscriptEvent.turnComplete := by
    unfold runTranscript
    rw [List.foldl_append]
    rfl
  have hacc := runTranscript_spans evs s hpart
  rw [hsplit, hacc, hu, hm]
  have htc : (runTranscript s [TranscriptEvent.turnComplete]).history =
      s.history := by
    show (handleTranscript s TranscriptEvent.turnComplete).history = s.history
    unfold handleTranscript
    rw [hu, hm]
    have h2 : jsTrim "" = "" := by decide
    simp [h2]
  refine ⟨?_, ?_, ?_, htc⟩
  · unfold handleTranscript
    simp only [String.empty_append]
    split_ifs <;> simp
  · rfl
  · rfl

/-- Witness for the amended C5: the spans `"Hel"`, `"lo"` then a
turn-complete append exactly one entry, `(user, "Hello")`, and clear the
accumulator. -/
theorem C5_turn_flush_witness :
    (runTranscript { userAcc := "", modelAcc := "", history := [] }
        ([TranscriptEvent.userSpan "Hel", TranscriptEvent.userSpan "lo"] ++
          [TranscriptEvent.turnComplete])).history =
      [(Speaker.user, "Hello")] ∧
    (runTranscript { userAcc := "", modelAcc := "", history := [] }
        ([TranscriptEvent.userSpan "Hel", TranscriptEvent.userSpan "lo"] ++
          [TranscriptEvent.turnComplete])).userAcc = "" := by
  have h := C5_turn_flush
    [TranscriptEvent.userSpan "Hel", TranscriptEvent.userSpan "lo"]
    { userAcc := "", modelAcc := "", history := [] }
    (by
      intro e he
      simp only [List.mem_cons, List.not_mem_nil, or_false] at he
      rcases he with rfl | rfl <;> simp)
    rfl rfl
  refine ⟨?_, h.2.1⟩
  rw [h.1]
  decide

/-! ### Session lifecycle controller: `disconnect` and the `connect`
guard (`useWAI.ts` lines 223-255) -/

/-- `ConnectionState` (`src/types.ts`). -/
inductive ConnectionState
  | DISCONNECTED
  | CONNECTING
  | CONNECTED
  | ERROR
  deriving DecidableEq

/-- Controller state: which refs hold live resources
(`sessionPromiseRef`, `mediaStreamRef`, `inputContextRef`,
`outputContextRef` non-null), the `audioSources` pending set, and the
React state flags. -/
structure ControllerState where
  sessionPromise : Bool
  mediaStream : Bool
  inputContext : Bool
  outputContext : Bool
  audioSources : List PlaybackUnit
  connectionState : ConnectionState
  isSpeaking : Bool
  isProcessing : Bool
  volumeLevel : ℚ
  deriving DecidableEq

/-- The controller before any `connect`: nothing held, disconnected. -/
def initialController : ControllerState :=
  { sessionPromise := false, mediaStream := false, inputContext := false,
    outputContext := false, audioSources := [],
    connectionState := ConnectionState.DISCONNECTED,
    isSpeaking := false, isProcessing := false, volumeLevel := 0 }

/-- `disconnect` (`useWAI.ts` lines 223-231): each teardown step is
guarded on its ref being non-null and shielded from failure
(`.catch(() => {})` on the channel close, `try`/`catch` around each
`s.stop()`), so it is total; it closes the channel, stops the microphone
tracks, closes both audio contexts, stops and clears every pending
source, and resets the connection, speaking, processing and volume
state. -/
def disconnect (s : ControllerState) : ControllerState :=
  let s1 := if s.sessionPromise then { s with sessionPromise := false } else s
  let s2 := if s1.mediaStream then { s1 with mediaStream := false } else s1
  let s3 := if s2.inputContext then { s2 with inputContext := false } else s2
  let s4 := if s3.outputContext then { s3 with outputContext := false } else s3
  { s4 with audioSources := [],
            connectionState := ConnectionState.DISCONNECTED,
            isSpeaking := false, isProcessing := false, volumeLevel := 0 }

/-! ### Claim C6 -/

/-- Claim C6: `disconnect` is idempotent and safe from every state
(it is a total function, so no error is possible): after it, the state is
`DISCONNECTED` with no channel, no microphone stream, no open audio
contexts, an empty pending set and reset speaking/processing/volume
flags; and on a never-connected controller it is a no-op. -/
theorem C6_disconnect_idempotent (s : ControllerState) :
    disconnect (disconnect s) = disconnect s ∧
    (disconnect s).connectionState = ConnectionState.DISCONNECTED ∧
    (disconnect s).sessionPromise = false ∧
    (disconnect s).mediaStream = false ∧
    (disconnect s).inputContext = false ∧
    (disconnect s).outputContext = false ∧
    (disconnect s).audioSources = [] ∧
    (disconnect s).isSpeaking = false ∧
    (disconnect s).isProcessing = false ∧
    (disconnect s).volumeLevel = 0 ∧
    disconnect initialController = initialController := by
  have hconst : ∀ t : ControllerState, disconnect t = initialController := by
    intro t
    obtain ⟨sp, ms, ic, oc, srcs, cst, spk, prc, vol⟩ := t
    cases sp <;> cases ms <;> cases ic <;> cases oc <;> rfl
  simp [hconst, initialController]

/-! ### Claim C9 -/

/-- Externally visible effects attempted by `connect`
(`useWAI.ts` lines 233-255), in program order. -/
inductive ConnectEffect
  | alertMissingKey
  | createLocalSession
  | sessionStoreInsert
  | teardown
  | getUserMedia
  | createAudioContexts
  | openLiveChannel
  deriving DecidableEq

/-- Result of the `connect` guard sequence. -/
inductive ConnectResult
  | missingKey
  | loginRequired
  | proceeded
  deriving DecidableEq

/-- The guard structure of `connect` (`useWAI.ts` lines 233-255):
check the API key (alert and return if absent); ensure a session id
exists (`createNewChat`, which for a signed-out caller builds only a
local session and for a signed-in caller inserts a row in the session
store); then `if (!user) return "LOGIN_REQUIRED"` — the distinguished
authorization-required result — before `disconnect()`, microphone
acquisition, audio-context allocation and the live-channel open. -/
def connect (hasGeminiKey authorized hasActiveSession : Bool) :
    ConnectResult × List ConnectEffect :=
  if !hasGeminiKey then
    (ConnectResult.missingKey, [ConnectEffect.alertMissingKey])
  else
    let sessionEffects :=
      if hasActiveSession then []
      else if authorized then [ConnectEffect.sessionStoreInsert]
      else [ConnectEffect.createLocalSession]
    if !authorized then (ConnectResult.loginRequired, sessionEffects)
    else
      (ConnectResult.proceeded,
        sessionEffects ++
          [ConnectEffect.teardown, ConnectEffect.getUserMedia,
            ConnectEffect.createAudioContexts, ConnectEffect.openLiveChannel])

/-- Claim C9: an unauthorized `connect` (API key present, caller signed
out) returns the distinguished authorization-required result and touches
no device or network resource: it never reaches microphone acquisition,
audio-context allocation, the live-channel open or the session-store
insert — at most it creates a purely local chat session. -/
theorem C9_connect_unauthorized (hasActiveSession : Bool) :
    (connect true false hasActiveSession).1 = ConnectResult.loginRequired ∧
    (∀ e ∈ (connect true false hasActiveSession).2,
      e = ConnectEffect.createLocalSession) ∧
    ConnectEffect.getUserMedia ∉ (connect true false hasActiveSession).2 ∧
    ConnectEffect.createAudioContexts ∉
      (connect true false hasActiveSession).2 ∧
    ConnectEffect.openLiveChannel ∉ (connect true false hasActiveSession).2 ∧
    ConnectEffect.sessionStoreInsert ∉
      (connect true false hasActiveSession).2 := by
  cases hasActiveSession <;> decide

/-- Witness for C9: a signed-out `connect` with no active session returns
the authorization-required result without touching the microphone. -/
theorem C9_connect_unauthorized_witness :
    (connect true false false).1 = ConnectResult.loginRequired ∧
    ConnectEffect.getUserMedia ∉ (connect true false false).2 := by
  have h := C9_connect_unauthorized false
  exact ⟨h.1, h.2.2.1⟩

end Keshra
